import Mathlib

/-!
Verification development for the plugin acquisition pipeline in `utils.py`.

The Python source is shallowly embedded: byte strings become `List Nat`
(one entry per byte, each < 256), the local filesystem becomes an explicit
`FS` record threaded through the functions, and the remote API responses
are inlined into the input data (each tree entry carries the blob JSON its
URL would return).  Fallible code returns an explicit success flag or
`Except`.  Python string primitives (`split`, `in`, `startswith`,
`os.path.join`, slicing) are re-implemented on `List Char` so that every
definition is executable by the kernel.
-/

/-- Boolean test that the first character list starts the second
(`needle` is an initial segment of `haystack`). -/
def leadsWith : List Char → List Char → Bool
  | [], _ => true
  | _ :: _, [] => false
  | a :: as, b :: bs => a = b && leadsWith as bs

/-- Boolean test that `pat` occurs contiguously somewhere inside `l`:
the model of Python's substring operator `pat in l`. -/
def occursIn (pat : List Char) : List Char → Bool
  | [] => leadsWith pat []
  | c :: rest => leadsWith pat (c :: rest) || occursIn pat rest

/-- Python `pat in s` on strings. -/
def strContains (s pat : String) : Bool := occursIn pat.data s.data

/-- Python `s.startswith(pre)`. -/
def strStartsWith (s pre : String) : Bool := leadsWith pre.data s.data

/-- Python `s.endswith(suf)`. -/
def strEndsWith (s suf : String) : Bool := leadsWith suf.data.reverse s.data.reverse

/-- Python `s.split(sep)` for a one-character separator `sep`. -/
def splitChar (sep : Char) : List Char → List (List Char)
  | [] => [[]]
  | c :: rest =>
    if c = sep then [] :: splitChar sep rest
    else match splitChar sep rest with
      | [] => [[c]]
      | h :: t => (c :: h) :: t

/-- Python `s.split(sep)` for a two-character separator `a ++ b`
(used for `"=="` and `">="`), scanning left to right without overlap. -/
def splitPair (a b : Char) : List Char → List (List Char)
  | [] => [[]]
  | [c] => [[c]]
  | c :: d :: rest =>
    if c = a ∧ d = b then
      match splitPair a b rest with
      | [] => [[], []]
      | h :: t => [] :: h :: t
    else match splitPair a b (d :: rest) with
      | [] => [[c]]
      | h :: t => (c :: h) :: t

/-- `path.split('/')` producing strings. -/
def pathSplit (s : String) : List String := (splitChar '/' s.data).map List.asString

/-- `name.split('.')` producing strings. -/
def dotSplit (s : String) : List String := (splitChar '.' s.data).map List.asString

/-- `package.split("==")` producing strings. -/
def eqSplit (s : String) : List String := (splitPair '=' '=' s.data).map List.asString

/-- `package.split(">=")` producing strings. -/
def geSplit (s : String) : List String := (splitPair '>' '=' s.data).map List.asString

/-- POSIX `os.path.join(a, b)` for a single join: an absolute second
component discards the first, otherwise a `/` separator is inserted
unless one is already present. -/
def osJoin (a b : String) : String :=
  if strStartsWith b "/" then b
  else if a = "" then b
  else if strEndsWith a "/" then a ++ b
  else a ++ "/" ++ b

/-- Value of one base64 alphabet character, `none` outside the alphabet. -/
def b64Val (c : Char) : Option Nat :=
  if 'A' ≤ c ∧ c ≤ 'Z' then some (c.toNat - 65)
  else if 'a' ≤ c ∧ c ≤ 'z' then some (c.toNat - 97 + 26)
  else if '0' ≤ c ∧ c ≤ '9' then some (c.toNat - 48 + 52)
  else if c = '+' then some 62
  else if c = '/' then some 63
  else none

/-- Decode base64 groups of four characters into bytes; `=` padding is
accepted only at the very end, any other shape fails (Python
`binascii.Error`, surfaced by `base64.b64decode`). -/
def b64Groups : List Char → Option (List Nat)
  | [] => some []
  | a :: b :: c :: d :: rest => do
    let va ← b64Val a
    let vb ← b64Val b
    if c = '=' then
      if d = '=' ∧ rest = [] then some [va * 4 + vb / 16] else none
    else do
      let vc ← b64Val c
      if d = '=' then
        if rest = [] then some [va * 4 + vb / 16, vb % 16 * 16 + vc / 4] else none
      else do
        let vd ← b64Val d
        let tail ← b64Groups rest
        some ((va * 4 + vb / 16) :: (vb % 16 * 16 + vc / 4) :: (vc % 4 * 64 + vd) :: tail)
  | _ => none

/-- Python `base64.b64decode` (default non-strict mode): characters outside
the alphabet and `=` are discarded, then the groups are decoded; a length
that is not a multiple of four is a padding error (`none`). -/
def b64decode (s : String) : Option (List Nat) :=
  b64Groups (s.data.filter fun c => (b64Val c).isSome || c = '=')

/-- A byte is a UTF-8 continuation byte. -/
def utf8Cont (b : Nat) : Bool := 0x80 ≤ b && b ≤ 0xBF

/-- Validity of a byte sequence as UTF-8, including the overlong,
surrogate and out-of-range rejections Python's `bytes.decode("utf-8")`
performs.  When the bytes are valid, Python's decode-then-write with the
default UTF-8 codec reproduces exactly the input bytes on disk. -/
def isValidUtf8 : List Nat → Bool
  | [] => true
  | b :: rest =>
    if b ≤ 0x7F then isValidUtf8 rest
    else if 0xC2 ≤ b && b ≤ 0xDF then
      match rest with
      | c1 :: r => utf8Cont c1 && isValidUtf8 r
      | [] => false
    else if b = 0xE0 then
      match rest with
      | c1 :: c2 :: r => (0xA0 ≤ c1 && c1 ≤ 0xBF) && utf8Cont c2 && isValidUtf8 r
      | _ => false
    else if b = 0xED then
      match rest with
      | c1 :: c2 :: r => (0x80 ≤ c1 && c1 ≤ 0x9F) && utf8Cont c2 && isValidUtf8 r
      | _ => false
    else if 0xE1 ≤ b && b ≤ 0xEF then
      match rest with
      | c1 :: c2 :: r => utf8Cont c1 && utf8Cont c2 && isValidUtf8 r
      | _ => false
    else if b = 0xF0 then
      match rest with
      | c1 :: c2 :: c3 :: r =>
        (0x90 ≤ c1 && c1 ≤ 0xBF) && utf8Cont c2 && utf8Cont c3 && isValidUtf8 r
      | _ => false
    else if 0xF1 ≤ b && b ≤ 0xF3 then
      match rest with
      | c1 :: c2 :: c3 :: r => utf8Cont c1 && utf8Cont c2 && utf8Cont c3 && isValidUtf8 r
      | _ => false
    else if b = 0xF4 then
      match rest with
      | c1 :: c2 :: c3 :: r =>
        (0x80 ≤ c1 && c1 ≤ 0x8F) && utf8Cont c2 && utf8Cont c3 && isValidUtf8 r
      | _ => false
    else false

/-- Local filesystem state: an association list of file contents (the most
recent write for a path is listed first) and the list of directories known
to exist.  Permission bits are outside the model. -/
structure FS where
  files : List (String × List Nat)
  dirs : List String
deriving DecidableEq

/-- First association found for `p` — the current content of file `p`. -/
def lookupFile : List (String × List Nat) → String → Option (List Nat)
  | [], _ => none
  | (q, c) :: rest, p => if p = q then some c else lookupFile rest p

def FS.getFile (fs : FS) (p : String) : Option (List Nat) := lookupFile fs.files p

def FS.setFile (fs : FS) (p : String) (c : List Nat) : FS :=
  ⟨(p, c) :: fs.files, fs.dirs⟩

def FS.addDirs (fs : FS) (ds : List String) : FS := ⟨fs.files, ds ++ fs.dirs⟩

/-- All the directories `os.makedirs(p, exist_ok=True)` ensures exist:
every non-trivial prefix of `p` up to a `/` boundary (the leading empty
string produced by an absolute path is a harmless artifact). -/
def dirPrefixes (p : String) : List String :=
  let parts := pathSplit p
  (List.range parts.length).map fun k => String.intercalate "/" (parts.take (k + 1))

/-- `utils.write_file` (lines 40-46): `open(file_path, 'w')` first creates
or truncates the file, then the base64 payload is decoded and the result
decoded as UTF-8 before writing.  A base64 or UTF-8 error leaves the file
empty and signals failure; on success the bytes written are exactly the
base64-decoded bytes. -/
def write_file (fs : FS) (file_path : String) (b64_string : String) : FS × Bool :=
  let fs1 := fs.setFile file_path []
  match b64decode b64_string with
  | none => (fs1, false)
  | some content =>
    if isValidUtf8 content then (fs1.setFile file_path content, true) else (fs1, false)

/-- One record of the `?recursive=1` tree listing, with the blob JSON its
`url` field would return inlined (`encoding` tag and base64 `content`). -/
structure TreeEntry where
  path : String
  mode : String
  encoding : String
  content : String
deriving DecidableEq

/-- The directory `dl_github_repo` passes to `os.makedirs` for a nested
entry (lines 95-97): the `'/'`-joined components of the absolute path
minus its last one, joined once more onto the install path (a second join
that is the identity when the install path is absolute). -/
def subdirsTarget (ip rel : String) : String :=
  osJoin ip (String.intercalate "/" (pathSplit (osJoin ip rel)).dropLast)

/-- The body of the per-entry loop of `utils.dl_github_repo`
(lines 88-106): skip paths starting with `'.'` and directory modes,
create the parent directories of nested paths, check the blob encoding is
base64 and write the decoded file.  The Boolean records whether the entry
was processed without raising. -/
def processEntry (ip : String) (fs : FS) (e : TreeEntry) : FS × Bool :=
  match e.path.data with
  | [] => (fs, false)
  | c :: _ =>
    if c = '.' then (fs, true)
    else if e.mode = "040000" then (fs, true)
    else
      let abs_path := osJoin ip e.path
      let fs1 := if 1 < (pathSplit e.path).length then
          fs.addDirs (dirPrefixes (subdirsTarget ip e.path))
        else fs
      if e.encoding = "base64" then write_file fs1 abs_path e.content
      else (fs1, false)

/-- `utils.dl_github_repo` (lines 79-106) over an already-fetched tree
listing: entries are processed in order and the first failing entry aborts
the run, leaving the partial filesystem state. -/
def dl_github_repo (ip : String) (entries : List TreeEntry) (fs : FS) : FS × Bool :=
  match entries with
  | [] => (fs, true)
  | e :: rest =>
    match processEntry ip fs e with
    | (fs1, true) => dl_github_repo ip rest fs1
    | (fs1, false) => (fs1, false)

example : b64decode "aGVsbG8=" = some [104, 101, 108, 108, 111] := by decide
example : b64decode "/w==" = some [255] := by decide
example : isValidUtf8 [255] = false := by decide
example :
    dl_github_repo "/ip" [⟨"a/b/c.py", "100644", "base64", "aGVsbG8="⟩] ⟨[], []⟩ =
      (⟨[("/ip/a/b/c.py", [104, 101, 108, 108, 111]), ("/ip/a/b/c.py", [])],
        ["", "/ip", "/ip/a", "/ip/a/b"]⟩, true) := by decide

@[simp]
theorem FS.getFile_setFile_self (fs : FS) (p : String) (c : List Nat) :
    (fs.setFile p c).getFile p = some c := by
  simp [FS.setFile, FS.getFile, lookupFile]

theorem FS.getFile_setFile_ne (fs : FS) {p q : String} (c : List Nat) (h : p ≠ q) :
    (fs.setFile q c).getFile p = fs.getFile p := by
  simp [FS.setFile, FS.getFile, lookupFile, h]

@[simp]
theorem FS.getFile_addDirs (fs : FS) (ds : List String) (p : String) :
    (fs.addDirs ds).getFile p = fs.getFile p := rfl

@[simp]
theorem FS.dirs_setFile (fs : FS) (p : String) (c : List Nat) :
    (fs.setFile p c).dirs = fs.dirs := rfl

@[simp]
theorem FS.dirs_addDirs (fs : FS) (ds : List String) :
    (fs.addDirs ds).dirs = ds ++ fs.dirs := rfl

theorem write_file_getFile_ne {fs : FS} {q b : String} {p : String} (h : p ≠ q) :
    (write_file fs q b).1.getFile p = fs.getFile p := by
  unfold write_file
  cases hdec : b64decode b with
  | none => simp [FS.getFile_setFile_ne _ _ h]
  | some content =>
    by_cases hv : isValidUtf8 content = true <;>
      simp [hv, FS.getFile_setFile_ne _ _ h]

theorem write_file_dirs (fs : FS) (q b : String) :
    (write_file fs q b).1.dirs = fs.dirs := by
  unfold write_file
  cases hdec : b64decode b with
  | none => simp
  | some content => by_cases hv : isValidUtf8 content = true <;> simp [hv]

theorem write_file_success {fs fs1 : FS} {q b : String}
    (h : write_file fs q b = (fs1, true)) :
    ∃ bs, b64decode b = some bs ∧ fs1.getFile q = some bs := by
  unfold write_file at h
  cases hdec : b64decode b with
  | none => rw [hdec] at h; simp at h
  | some content =>
    rw [hdec] at h
    dsimp only at h
    by_cases hv : isValidUtf8 content = true
    · rw [if_pos hv] at h
      injection h with h1 _
      exact ⟨content, rfl, by rw [← h1]; simp⟩
    · rw [if_neg hv] at h
      injection h with _ h2
      exact absurd h2 Bool.false_ne_true

/-- Directories only accumulate while an entry is processed. -/
theorem processEntry_dirs_mono {ip : String} {fs : FS} {e : TreeEntry} {d : String}
    (h : d ∈ fs.dirs) : d ∈ (processEntry ip fs e).1.dirs := by
  unfold processEntry
  cases hpd : e.path.data with
  | nil => exact h
  | cons c cs =>
    by_cases hdot : c = '.'
    · simpa [hdot] using h
    by_cases hmode : e.mode = "040000"
    · simpa [hdot, hmode] using h
    simp only [hdot, hmode, if_false, if_neg hdot, if_neg hmode]
    by_cases hn : 1 < (pathSplit e.path).length <;>
      by_cases henc : e.encoding = "base64" <;>
        simp [hn, henc, write_file_dirs, List.mem_append, h]

/-- Provenance of a file change during one entry: only a non-hidden,
non-directory entry writes, and only at its own joined path. -/
theorem processEntry_change {ip : String} {fs : FS} {e : TreeEntry} {p : String}
    (h : (processEntry ip fs e).1.getFile p ≠ fs.getFile p) :
    (∃ c cs, e.path.data = c :: cs ∧ c ≠ '.') ∧ e.mode ≠ "040000" ∧
      p = osJoin ip e.path := by
  unfold processEntry at h
  rcases hpd : e.path.data with _ | ⟨c, cs⟩
  · rw [hpd] at h; exact absurd rfl h
  · rw [hpd] at h
    dsimp only at h
    by_cases hdot : c = '.'
    · rw [if_pos hdot] at h; exact absurd rfl h
    by_cases hmode : e.mode = "040000"
    · rw [if_neg hdot, if_pos hmode] at h; exact absurd rfl h
    rw [if_neg hdot, if_neg hmode] at h
    by_cases habs : p = osJoin ip e.path
    · exact ⟨⟨c, cs, rfl, hdot⟩, hmode, habs⟩
    · exfalso
      apply h
      by_cases hn : 1 < (pathSplit e.path).length <;>
        by_cases henc : e.encoding = "base64" <;>
          simp [hn, henc, write_file_getFile_ne habs]

/-- A successfully processed file entry leaves exactly the base64-decoded
bytes of its blob at its joined path. -/
theorem processEntry_success_write {ip : String} {fs fs1 : FS} {e : TreeEntry}
    {c : Char} {cs : List Char}
    (hpd : e.path.data = c :: cs) (hdot : c ≠ '.') (hmode : e.mode ≠ "040000")
    (h : processEntry ip fs e = (fs1, true)) :
    ∃ bs, b64decode e.content = some bs ∧ fs1.getFile (osJoin ip e.path) = some bs := by
  unfold processEntry at h
  rw [hpd] at h
  dsimp only at h
  rw [if_neg hdot, if_neg hmode] at h
  by_cases henc : e.encoding = "base64"
  · rw [if_pos henc] at h
    exact write_file_success h
  · rw [if_neg henc] at h
    injection h with _ h2
    exact absurd h2 Bool.false_ne_true

/-- A successfully processed nested file entry has all the directories of
its `os.makedirs` target present afterwards. -/
theorem processEntry_success_dirs {ip : String} {fs fs1 : FS} {e : TreeEntry}
    {c : Char} {cs : List Char}
    (hpd : e.path.data = c :: cs) (hdot : c ≠ '.') (hmode : e.mode ≠ "040000")
    (hn : 1 < (pathSplit e.path).length)
    (h : processEntry ip fs e = (fs1, true)) :
    ∀ d ∈ dirPrefixes (subdirsTarget ip e.path), d ∈ fs1.dirs := by
  unfold processEntry at h
  rw [hpd] at h
  dsimp only at h
  rw [if_neg hdot, if_neg hmode, if_pos hn] at h
  intro d hd
  by_cases henc : e.encoding = "base64"
  · rw [if_pos henc] at h
    have h1 := congrArg Prod.fst h
    dsimp only at h1
    rw [← h1, write_file_dirs]
    exact List.mem_append_left _ hd
  · rw [if_neg henc] at h
    injection h with _ h2
    exact absurd h2 Bool.false_ne_true

/-- Splitting a successful run at its first entry. -/
theorem dl_cons_success {ip : String} {fs fs2 : FS} {e : TreeEntry}
    {rest : List TreeEntry}
    (h : dl_github_repo ip (e :: rest) fs = (fs2, true)) :
    ∃ fs1, processEntry ip fs e = (fs1, true) ∧
      dl_github_repo ip rest fs1 = (fs2, true) := by
  unfold dl_github_repo at h
  rcases hpe : processEntry ip fs e with ⟨fs1, b⟩
  rw [hpe] at h
  cases b with
  | false => dsimp only at h; injection h with _ h2; exact absurd h2 Bool.false_ne_true
  | true => exact ⟨fs1, rfl, by simpa using h⟩

/-- Directories only accumulate over a whole run, successful or not. -/
theorem dl_dirs_mono {ip : String} {d : String} :
    ∀ (l : List TreeEntry) (fs : FS), d ∈ fs.dirs →
      d ∈ (dl_github_repo ip l fs).1.dirs := by
  intro l
  induction l with
  | nil => intro fs h; exact h
  | cons a t ih =>
    intro fs h
    unfold dl_github_repo
    rcases hpe : processEntry ip fs a with ⟨fs1, b⟩
    have h1 : d ∈ fs1.dirs := by
      have := @processEntry_dirs_mono ip fs a d h
      rwa [hpe] at this
    cases b with
    | false => simpa using h1
    | true => simpa using ih fs1 h1

/-- Provenance of a file change over a whole run: any path whose content
differs after `dl_github_repo` is the joined path of some processed entry
whose relative path does not start with `'.'`. -/
theorem dl_change {ip : String} {p : String} :
    ∀ (l : List TreeEntry) (fs : FS),
      (dl_github_repo ip l fs).1.getFile p ≠ fs.getFile p →
      ∃ e ∈ l, (∃ c cs, e.path.data = c :: cs ∧ c ≠ '.') ∧
        e.mode ≠ "040000" ∧ p = osJoin ip e.path := by
  intro l
  induction l with
  | nil => intro fs h; exact absurd rfl h
  | cons a t ih =>
    intro fs h
    unfold dl_github_repo at h
    rcases hpe : processEntry ip fs a with ⟨fs1, b⟩
    rw [hpe] at h
    cases b with
    | false =>
      dsimp only at h
      have := @processEntry_change ip fs a p
        (by rw [hpe]; exact h)
      exact ⟨a, List.mem_cons_self a t, this⟩
    | true =>
      dsimp only at h
      by_cases hmid : (dl_github_repo ip t fs1).1.getFile p = fs1.getFile p
      · rw [hmid] at h
        have := @processEntry_change ip fs a p
          (by rw [hpe]; exact h)
        exact ⟨a, List.mem_cons_self a t, this⟩
      · obtain ⟨e, he, hprop⟩ := ih fs1 hmid
        exact ⟨e, List.mem_cons_of_mem a he, hprop⟩

/-- Once a file holds the decoded bytes of entry `e`, the rest of a
successful run keeps them, provided every later entry writing to the same
joined path is `e` itself. -/
theorem dl_keep {ip p : String} {e : TreeEntry} {bs : List Nat} {c : Char}
    {cs : List Char}
    (hpd : e.path.data = c :: cs) (hdot : c ≠ '.') (hmode : e.mode ≠ "040000")
    (hp : p = osJoin ip e.path) (hdec : b64decode e.content = some bs) :
    ∀ (l : List TreeEntry) (fs1 fs2 : FS),
      dl_github_repo ip l fs1 = (fs2, true) →
      fs1.getFile p = some bs →
      (∀ f ∈ l, osJoin ip f.path = p → f = e) →
      fs2.getFile p = some bs := by
  intro l
  induction l with
  | nil =>
    intro fs1 fs2 hrun hfile hstable
    unfold dl_github_repo at hrun
    injection hrun with h1 _
    rw [← h1]
    exact hfile
  | cons a t ih =>
    intro fs1 fs2 hrun hfile hstable
    obtain ⟨fsm, hpe, hrest⟩ := dl_cons_success hrun
    have hmidfile : fsm.getFile p = some bs := by
      by_cases hap : osJoin ip a.path = p
      · have hae : a = e := hstable a (List.mem_cons_self a t) hap
        subst hae
        obtain ⟨bs1, hdec1, hfile1⟩ := processEntry_success_write hpd hdot hmode hpe
        rw [hdec] at hdec1
        injection hdec1 with hbs
        rw [← hp] at hfile1
        rw [hfile1, hbs]
      · by_cases hchg : fsm.getFile p = fs1.getFile p
        · rw [hchg]; exact hfile
        · exfalso
          have := @processEntry_change ip fs1 a p
            (by rw [hpe]; exact hchg)
          exact hap this.2.2.symm
    exact ih fsm fs2 hrest hmidfile
      (fun f hf => hstable f (List.mem_cons_of_mem a hf))

/-- Core of the Remote Tree Fetcher correctness for UTF-8 payloads: after
a successful run, a non-hidden file entry with no other entry mapping to
its joined path has exactly its decoded bytes on disk, and for a nested
path all the directories of its `os.makedirs` target exist. -/
theorem dl_fetch_main {ip : String} {e : TreeEntry} {bs : List Nat} {c : Char}
    {cs : List Char}
    (hpd : e.path.data = c :: cs) (hdot : c ≠ '.') (hmode : e.mode ≠ "040000")
    (hdec : b64decode e.content = some bs) :
    ∀ (l : List TreeEntry) (fs fsF : FS),
      dl_github_repo ip l fs = (fsF, true) → e ∈ l →
      (∀ f ∈ l, osJoin ip f.path = osJoin ip e.path → f = e) →
      fsF.getFile (osJoin ip e.path) = some bs ∧
        (1 < (pathSplit e.path).length →
          ∀ d ∈ dirPrefixes (subdirsTarget ip e.path), d ∈ fsF.dirs) := by
  intro l
  induction l with
  | nil => intro fs fsF _ he; cases he
  | cons a t ih =>
    intro fs fsF hrun he huniq
    obtain ⟨fs1, hpe, hrest⟩ := dl_cons_success hrun
    rcases List.mem_cons.mp he with hea | het
    · subst hea
      obtain ⟨bs1, hdec1, hfile1⟩ := processEntry_success_write hpd hdot hmode hpe
      rw [hdec] at hdec1
      injection hdec1 with hbs
      subst hbs
      constructor
      · exact dl_keep hpd hdot hmode rfl hdec t fs1 fsF hrest hfile1
          (fun f hf => huniq f (List.mem_cons_of_mem e hf))
      · intro hn d hd
        have h1 := processEntry_success_dirs hpd hdot hmode hn hpe d hd
        have h2 := @dl_dirs_mono ip d t fs1 h1
        rw [hrest] at h2
        exact h2
    · exact ih fs1 fsF hrest het (fun f hf => huniq f (List.mem_cons_of_mem a hf))

/-- C1 (amended): for a tree entry with a base64 blob whose decoded bytes
are valid UTF-8 (so the run can succeed), after a successful Remote Tree
Fetcher run into an absolute InstallPath the file at the entry's joined
path holds exactly the base64-decoded bytes of the blob, and for a nested
path such as "a/b/c.py" every directory of the `os.makedirs` target (for
example "/ip/a" and "/ip/a/b") exists.  Binary payloads that are not valid
UTF-8 are refuted separately: they abort the run with a decode error. -/
theorem tree_fetch_materializes_decoded_blob {ip : String} {entries : List TreeEntry}
    {fs fsFinal : FS} {e : TreeEntry} {bs : List Nat} {c : Char} {cs : List Char}
    (hip : strStartsWith ip "/" = true)
    (hrun : dl_github_repo ip entries fs = (fsFinal, true))
    (he : e ∈ entries)
    (hpd : e.path.data = c :: cs) (hdot : c ≠ '.') (hmode : e.mode ≠ "040000")
    (huniq : ∀ f ∈ entries, osJoin ip f.path = osJoin ip e.path → f = e)
    (hdec : b64decode e.content = some bs) :
    fsFinal.getFile (osJoin ip e.path) = some bs ∧
      (1 < (pathSplit e.path).length →
        ∀ d ∈ dirPrefixes (subdirsTarget ip e.path), d ∈ fsFinal.dirs) :=
  dl_fetch_main hpd hdot hmode hdec entries fs fsFinal hrun he huniq

/-- C1 witness: fetching the single entry "a/b/c.py" with blob "aGVsbG8="
(the base64 of "hello") into "/ip" materializes the decoded bytes at
"/ip/a/b/c.py" and creates the directories "/ip/a" and "/ip/a/b". -/
theorem tree_fetch_materializes_decoded_blob_witness :
    (dl_github_repo "/ip" [⟨"a/b/c.py", "100644", "base64", "aGVsbG8="⟩]
        ⟨[], []⟩).1.getFile (osJoin "/ip" "a/b/c.py") = some [104, 101, 108, 108, 111] ∧
      "/ip/a" ∈ (dl_github_repo "/ip" [⟨"a/b/c.py", "100644", "base64", "aGVsbG8="⟩]
        ⟨[], []⟩).1.dirs ∧
      "/ip/a/b" ∈ (dl_github_repo "/ip" [⟨"a/b/c.py", "100644", "base64", "aGVsbG8="⟩]
        ⟨[], []⟩).1.dirs := by
  have h := @tree_fetch_materializes_decoded_blob "/ip"
    [⟨"a/b/c.py", "100644", "base64", "aGVsbG8="⟩] ⟨[], []⟩
    (dl_github_repo "/ip" [⟨"a/b/c.py", "100644", "base64", "aGVsbG8="⟩]
      ⟨[], []⟩).1
    ⟨"a/b/c.py", "100644", "base64", "aGVsbG8="⟩
    [104, 101, 108, 108, 111] 'a' "/b/c.py".data
    (by decide) (by decide) (List.mem_singleton.mpr rfl) (by decide) (by decide)
    (by decide) (by decide) (by decide)
  exact ⟨h.1, h.2 (by decide) "/ip/a" (by decide), h.2 (by decide) "/ip/a/b" (by decide)⟩

/-- C1 counterexample: the blob "/w==" decodes to the single binary byte
255, which is not valid UTF-8, so `write_file` raises inside the fetch:
the run aborts and the file is left empty instead of holding the decoded
byte — decoded payloads that are binary are not materialized exactly. -/
theorem binary_blob_aborts_fetch :
    b64decode "/w==" = some [255] ∧
      dl_github_repo "/ip" [⟨"b.bin", "100644", "base64", "/w=="⟩] ⟨[], []⟩ =
        (⟨[("/ip/b.bin", [])], []⟩, false) ∧
      ¬ (dl_github_repo "/ip" [⟨"b.bin", "100644", "base64", "/w=="⟩]
          ⟨[], []⟩).1.getFile "/ip/b.bin" = some [255] := by decide

/-- C7 (amended): a directory-mode entry whose path does not start with
`'.'` is skipped outright — the Remote Tree Fetcher performs no
filesystem action for it, so the directory only ever exists if it is
later created as a parent of some fetched file entry. -/
theorem dir_entries_skipped {ip : String} {fs : FS} {e : TreeEntry} {c : Char}
    {cs : List Char}
    (hpd : e.path.data = c :: cs) (hdot : c ≠ '.') (hmode : e.mode = "040000") :
    processEntry ip fs e = (fs, true) := by
  unfold processEntry
  rw [hpd]
  dsimp only
  rw [if_neg hdot, if_pos hmode]

/-- C7 witness: a concrete directory entry is processed with no effect. -/
theorem dir_entries_skipped_witness :
    processEntry "/ip" ⟨[], []⟩ ⟨"sub", "040000", "", ""⟩ = (⟨[], []⟩, true) :=
  @dir_entries_skipped "/ip" ⟨[], []⟩ ⟨"sub", "040000", "", ""⟩ 's' "ub".data (by decide) (by decide) rfl

/-- C7 counterexample: a tree whose only entry is the directory
"emptydir" (mode 040000, no file entries beneath it) runs successfully
but creates no directory: the claim that the local directory exists even
for a directory containing no file entries is false. -/
theorem empty_dir_entry_not_materialized :
    dl_github_repo "/ip" [⟨"emptydir", "040000", "", ""⟩] ⟨[], []⟩ =
        (⟨[], []⟩, true) ∧
      ¬ "/ip/emptydir" ∈ (dl_github_repo "/ip" [⟨"emptydir", "040000", "", ""⟩]
          ⟨[], []⟩).1.dirs := by decide

/-- C8: any path whose on-disk content changed during a Remote Tree
Fetcher run is the joined path of some non-hidden file entry of the
listing; in particular no entry whose path begins with `'.'` is ever
materialized — such entries are skipped before any blob fetch or write. -/
theorem hidden_entries_never_materialized (ip p : String)
    (entries : List TreeEntry) (fs : FS)
    (h : (dl_github_repo ip entries fs).1.getFile p ≠ fs.getFile p) :
    ∃ e ∈ entries, (∃ c cs, e.path.data = c :: cs ∧ c ≠ '.') ∧
      e.mode ≠ "040000" ∧ p = osJoin ip e.path :=
  dl_change entries fs h

/-- C8 witness: a concrete run that wrote "/ip/f.py" yields the
non-hidden entry responsible for it. -/
theorem hidden_entries_never_materialized_witness :
    ∃ e ∈ [TreeEntry.mk "f.py" "100644" "base64" "aGk="],
      (∃ c cs, e.path.data = c :: cs ∧ c ≠ '.') ∧
        e.mode ≠ "040000" ∧ "/ip/f.py" = osJoin "/ip" e.path :=
  hidden_entries_never_materialized "/ip" "/ip/f.py"
    [TreeEntry.mk "f.py" "100644" "base64" "aGk="] ⟨[], []⟩ (by decide)

theorem leadsWith_iff (p : List Char) :
    ∀ l, leadsWith p l = true ↔ ∃ t, l = p ++ t := by
  induction p with
  | nil => intro l; simp [leadsWith]
  | cons a as ih =>
    intro l
    cases l with
    | nil => simp [leadsWith]
    | cons b bs =>
      simp only [leadsWith, Bool.and_eq_true, decide_eq_true_eq, ih bs]
      constructor
      · rintro ⟨rfl, t, rfl⟩; exact ⟨t, rfl⟩
      · rintro ⟨t, ht⟩
        injection ht with h1 h2
        exact ⟨h1.symm, t, h2⟩

theorem occursIn_iff (p : List Char) :
    ∀ l, occursIn p l = true ↔ ∃ u v, l = u ++ p ++ v := by
  intro l
  induction l with
  | nil =>
    simp only [occursIn, leadsWith_iff]
    constructor
    · rintro ⟨t, ht⟩
      exact ⟨[], t, by simpa using ht⟩
    · rintro ⟨u, v, huv⟩
      have h0 : u = [] ∧ p = [] ∧ v = [] := by simpa using huv.symm
      exact ⟨[], by simp [h0.2.1]⟩
  | cons c rest ih =>
    simp only [occursIn, Bool.or_eq_true, leadsWith_iff, ih]
    constructor
    · rintro (⟨t, ht⟩ | ⟨u, v, huv⟩)
      · exact ⟨[], t, by simpa using ht⟩
      · exact ⟨c :: u, v, by simp [huv]⟩
    · rintro ⟨u, v, huv⟩
      cases u with
      | nil => exact Or.inl ⟨v, by simpa using huv⟩
      | cons d du =>
        injection huv with h1 h2
        exact Or.inr ⟨du, v, by simpa [List.append_assoc] using h2⟩

theorem strContains_iff (s pat : String) :
    strContains s pat = true ↔ ∃ u v, s.data = u ++ pat.data ++ v :=
  occursIn_iff pat.data s.data

/-- A substring of `s` is a substring of `s ++ t`. -/
theorem strContains_append_left {s pat : String} (t : String)
    (h : strContains s pat = true) : strContains (s ++ t) pat = true := by
  rw [strContains_iff] at h ⊢
  obtain ⟨u, v, huv⟩ := h
  exact ⟨u, v ++ t.data, by rw [String.data_append, huv]; simp [List.append_assoc]⟩

/-- A string containing ".cpp" contains ".c". -/
theorem strContains_c_of_cpp {s : String} (h : strContains s ".cpp" = true) :
    strContains s ".c" = true := by
  rw [strContains_iff] at h ⊢
  obtain ⟨u, v, huv⟩ := h
  exact ⟨u, 'p' :: 'p' :: v, by simpa using huv⟩

/-- The exclusion test of `get_main_file` (lines 70-71): the regular
expression `^.*\.cpp|\.c|\.go$` found on a path.  The three alternatives
are evaluated independently: the first fires when ".cpp" occurs anywhere
(the `^.*` prefix is vacuous), the unanchored second when ".c" occurs
anywhere, and only the third is anchored to the end of the path. -/
def excludedByPattern (s : String) : Bool :=
  strContains s ".cpp" || strContains s ".c" || strEndsWith s ".go"

/-- The three-alternative pattern collapses: ".cpp" anywhere implies
".c" anywhere, so exclusion is exactly «contains ".c" or ends ".go"». -/
theorem excludedByPattern_eq (s : String) :
    excludedByPattern s = (strContains s ".c" || strEndsWith s ".go") := by
  unfold excludedByPattern
  cases hc : strContains s ".cpp" with
  | false => rfl
  | true => simp [strContains_c_of_cpp hc]

/-- One record of `os.listdir(install_path)` as the Entry-Point Resolver
sees it: a name, and for a directory the listing of its children (name
and whether the child is a plain file), `none` for a plain file. -/
structure DirEntry where
  name : String
  sub : Option (List (String × Bool))
deriving DecidableEq

/-- The list comprehension of `get_main_file` (lines 68-71): the plain
files of the listing whose joined path does not match the exclusion
pattern.  Each listing element carries its `os.path.isfile` status. -/
def candidateFiles (ip : String) (files : List (String × Bool)) : List String :=
  (files.filter fun nf => nf.2 && !excludedByPattern (osJoin ip nf.1)).map Prod.fst

/-- The scan loop of `get_main_file` (lines 68-76): first candidate file
whose name contains any of the requested substrings, joined to the
install path. -/
def scanForMain (possible : List String) (ip : String)
    (files : List (String × Bool)) : Option String :=
  (candidateFiles ip files).findSome? fun filename =>
    if possible.any fun pn => strContains filename pn then some (osJoin ip filename)
    else none

/-- `utils.get_main_file` (lines 49-76): a single plain file is returned
immediately; a single directory is unwrapped (its children moved up) and
the scan runs over them; otherwise the scan runs over the listing. -/
def get_main_file (possible : List String) (ip : String)
    (listing : List DirEntry) : Option String :=
  match listing with
  | [e] =>
    match e.sub with
    | none => some (osJoin ip e.name)
    | some children => scanForMain possible ip children
  | _ => scanForMain possible ip (listing.map fun e => (e.name, e.sub.isNone))

/-- C2 (amended): the candidate scan keeps exactly the plain-file
children whose full joined path neither contains ".c" anywhere nor ends
with ".go" — because the pattern is matched against the joined path and
its ".cpp"/".c" alternatives are unanchored, not a clean suffix test on
the bare name. -/
theorem candidate_scan_characterization (ip name : String)
    (files : List (String × Bool)) :
    name ∈ candidateFiles ip files ↔
      ((name, true) ∈ files ∧ strContains (osJoin ip name) ".c" = false ∧
        strEndsWith (osJoin ip name) ".go" = false) := by
  unfold candidateFiles
  rw [List.mem_map]
  constructor
  · rintro ⟨⟨n, b⟩, hmem, rfl⟩
    rw [List.mem_filter] at hmem
    obtain ⟨hin, hp⟩ := hmem
    dsimp only at hp
    rw [Bool.and_eq_true, Bool.not_eq_true'] at hp
    obtain ⟨hb, hex⟩ := hp
    subst hb
    rw [excludedByPattern_eq] at hex
    rw [Bool.or_eq_false_iff] at hex
    exact ⟨hin, hex.1, hex.2⟩
  · rintro ⟨hin, hc, hg⟩
    refine ⟨(name, true), ?_, rfl⟩
    rw [List.mem_filter]
    refine ⟨hin, ?_⟩
    dsimp only
    rw [excludedByPattern_eq, hc, hg]
    rfl

/-- C2 counterexample: "a.class" is a plain-file child whose name ends
with none of ".cpp", ".c", ".go", yet it is excluded from the scan (the
unanchored `\.c` alternative fires on the substring ".cl" of its joined
path), while "main.py" is kept. -/
theorem candidate_scan_excludes_noncompiled_name :
    ¬ "a.class" ∈ candidateFiles "/plugins" [("a.class", true), ("main.py", true)] ∧
      (strEndsWith "a.class" ".cpp" || strEndsWith "a.class" ".c" ||
        strEndsWith "a.class" ".go") = false ∧
      "main.py" ∈ candidateFiles "/plugins" [("a.class", true), ("main.py", true)] := by
  decide

/-- Containment in the install path propagates to every joined child
path (for a child name that is not absolute). -/
theorem strContains_osJoin_left (ip name pat : String)
    (h : strContains ip pat = true) (hn : strStartsWith name "/" = false) :
    strContains (osJoin ip name) pat = true := by
  unfold osJoin
  rw [hn]
  by_cases hip0 : ip = ""
  · subst hip0
    have hpat : pat.data = [] := by
      rw [strContains_iff] at h
      obtain ⟨u, v, huv⟩ := h
      have h0 : u = [] ∧ pat.data = [] ∧ v = [] := by simpa using huv.symm
      exact h0.2.1
    simp only [if_pos rfl]
    rw [strContains_iff]
    exact ⟨[], name.data, by simp [hpat]⟩
  · rw [if_neg hip0]
    by_cases hend : strEndsWith ip "/" = true
    · rw [if_pos hend]
      exact strContains_append_left name h
    · rw [if_neg hend]
      have h1 := strContains_append_left "/" h
      exact (String.append_assoc ip "/" name) ▸ strContains_append_left name h1

/-- C10: when the install path itself contains ".c" (for example a
".cache" component) and the listing has at least two entries, every file
is excluded from the candidate scan — the pattern is tested against the
joined path — and resolution returns "not found" whatever the directory
holds and whatever the candidate list is. -/
theorem resolver_blinded_by_dotc_install_path (possible : List String)
    (ip : String) (listing : List DirEntry)
    (hip : strContains ip ".c" = true)
    (hlen : 2 ≤ listing.length)
    (hnames : ∀ e ∈ listing, strStartsWith e.name "/" = false) :
    get_main_file possible ip listing = none := by
  cases listing with
  | nil => simp at hlen
  | cons a t =>
    cases t with
    | nil => simp at hlen
    | cons b t2 =>
      show get_main_file possible ip (a :: b :: t2) = none
      unfold get_main_file
      dsimp only
      unfold scanForMain
      have hnil : candidateFiles ip ((a :: b :: t2).map fun e => (e.name, e.sub.isNone)) = [] := by
        unfold candidateFiles
        rw [List.filter_eq_nil_iff.mpr, List.map_nil]
        rintro ⟨n, fb⟩ hmem
        rw [List.mem_map] at hmem
        obtain ⟨e, he, hen⟩ := hmem
        injection hen with hen1 _
        subst hen1
        have hex : excludedByPattern (osJoin ip e.name) = true := by
          rw [excludedByPattern_eq]
          rw [strContains_osJoin_left ip e.name ".c" hip (hnames e he)]
          rfl
        simp [hex]
      rw [hnil]
      rfl

/-- C10 witness: an install path under ".cache" blinds the resolver even
though "main.py" matches the candidate "main". -/
theorem resolver_blinded_by_dotc_install_path_witness :
    get_main_file ["main"] "/home/.cache/p" [⟨"main.py", none⟩, ⟨"other.py", none⟩] =
      none :=
  resolver_blinded_by_dotc_install_path ["main"] "/home/.cache/p"
    [⟨"main.py", none⟩, ⟨"other.py", none⟩] (by decide) (by decide) (by decide)

/-- The character class `[api.github.com/repos/]` of the URL validation
regex of `dl_folder_from_github` (line 116): a set of characters, not a
literal sequence. -/
def urlClassA : List Char := "api.github.com/repos/".data

/-- The character class `[/contents/]` of the same regex. -/
def urlClassB : List Char := "/contents/".data

/-- Successful search of `[api.github.com/repos/]+[/contents/]+`: the
string holds a character of the first class immediately followed by a
character of the second class (one repetition of each suffices, further
repetitions are optional). -/
def hasClassPair : List Char → Bool
  | [] => false
  | [_] => false
  | a :: b :: rest => (urlClassA.contains a && urlClassB.contains b) || hasClassPair (b :: rest)

/-- The URL validation of `utils.dl_folder_from_github` (lines 116-117):
`re.search(r"[api.github.com/repos/]+[/contents/]+", url)` raising
`ValueError("Unsupported url")` when the search fails.  This is the only
part of the function that runs before any network request. -/
def dl_folder_from_github_validate (url : String) : Except String Unit :=
  if hasClassPair url.data then Except.ok () else Except.error "Unsupported url"

/-- Modelled from the spec: a URL that "structurally resembles an
api…/repos/…/contents/… path" — it mentions "api" and the "/repos/" and
"/contents/" route segments.  Stated only to compare the implemented
validation against the documented shape. -/
def specContentsShape (url : String) : Bool :=
  strContains url "api" && strContains url "/repos/" && strContains url "/contents/"

theorem hasClassPair_cons_of (c : Char) {l : List Char}
    (h : hasClassPair l = true) : hasClassPair (c :: l) = true := by
  cases l with
  | nil => simp [hasClassPair] at h
  | cons b rest => unfold hasClassPair; rw [h]; simp

theorem hasClassPair_append {a b : Char} (ha : urlClassA.contains a = true)
    (hb : urlClassB.contains b = true) :
    ∀ (u w : List Char), hasClassPair (u ++ a :: b :: w) = true := by
  intro u
  induction u with
  | nil =>
    intro w
    show hasClassPair (a :: b :: w) = true
    simp only [hasClassPair, Bool.or_eq_true, Bool.and_eq_true]
    exact Or.inl ⟨ha, hb⟩
  | cons c cu ih => intro w; exact hasClassPair_cons_of c (ih w)

/-- C3 (amended): the validation accepts every URL containing a
first-class character immediately followed by a second-class one — in
particular every URL containing "/contents/" passes — and only URLs with
no such adjacent pair are rejected before any request; the check is far
weaker than the documented "api…/repos/…/contents/…" shape. -/
theorem folder_url_validation_passes_contents (url : String)
    (h : strContains url "/contents/" = true) :
    dl_folder_from_github_validate url = Except.ok () := by
  rw [strContains_iff] at h
  obtain ⟨u, v, huv⟩ := h
  have hcd : "/contents/".data = '/' :: 'c' :: "ontents/".data := by decide
  have hshape : url.data = u ++ '/' :: 'c' :: ("ontents/".data ++ v) := by
    rw [huv, hcd]; simp [List.append_assoc]
  unfold dl_folder_from_github_validate
  rw [hshape, hasClassPair_append (by decide) (by decide) u ("ontents/".data ++ v)]
  rfl

/-- C3 witness: a well-formed directory-contents API URL passes. -/
theorem folder_url_validation_passes_contents_witness :
    dl_folder_from_github_validate "https://api.github.com/repos/o/r/contents/x" =
      Except.ok () :=
  folder_url_validation_passes_contents
    "https://api.github.com/repos/o/r/contents/x" (by decide)

/-- C3 counterexample: the two-character string "ac" — nothing like a
directory-contents API path — passes the validation ('a' is in the first
character class, 'c' in the second), so it is not true that only URLs of
that shape pass. -/
theorem folder_url_validation_accepts_garbage :
    dl_folder_from_github_validate "ac" = Except.ok () ∧
      specContentsShape "ac" = false := ⟨rfl, by decide⟩

/-- The child contents-URL built by `dl_folder_from_github` when it
recurses into a nested directory entry (lines 135-137):
`url + name if url[:-1] == '/' else url + '/' + name`.  Note the
condition compares the whole URL minus its final character with "/". -/
def childContentsURL (url name : String) : String :=
  if List.asString url.data.dropLast = "/" then url ++ name
  else url ++ "/" ++ name

/-- C9: the recursion URL is built with `url[:-1] == '/'` — the string
minus its last character compared against "/" — instead of a trailing-slash
test on the last character.  A parent URL ending in '/' therefore still
gets a separator inserted (producing a double slash), and the no-separator
branch fires exactly for two-character URLs starting with '/'. -/
theorem child_contents_url_eval :
    childContentsURL "https://api.github.com/repos/o/r/contents/" "sub" =
        "https://api.github.com/repos/o/r/contents//sub" ∧
      childContentsURL "https://api.github.com/repos/o/r/contents" "sub" =
        "https://api.github.com/repos/o/r/contents/sub" ∧
      childContentsURL "/x" "sub" = "/xsub" := by decide

/-- A build-tool invocation of the Build Orchestrator. -/
inductive BuildCall where
  | make : BuildCall
  | goBuild : BuildCall
deriving DecidableEq

/-- `utils.handle_compilation` (lines 158-176) restricted to its
invocation behavior on a directory listing: the first loop runs `make`
and returns as soon as a file literally named "Makefile" is seen;
otherwise every filename containing a dot whose second dot-separated
component is "go" triggers one `go build` attempt. -/
def handle_compilation (content : List String) : List BuildCall :=
  if content.contains "Makefile" then [BuildCall.make]
  else
    ((content.filter fun n => n.data.contains '.').filter
        fun f => (dotSplit f).get? 1 = some "go").map
      fun _ => BuildCall.goBuild

/-- C5 (amended): with a file literally named "Makefile" present only the
make path is invoked; without one, the Go build tool is attempted exactly
when some filename containing a dot has "go" as its SECOND dot-separated
component (`filename.split('.')[1] == "go"`), which is neither implied by
nor implies a ".go" extension; with neither, no build action happens. -/
theorem build_orchestrator_dispatch (content : List String) :
    (content.contains "Makefile" = true →
      handle_compilation content = [BuildCall.make]) ∧
    (content.contains "Makefile" = false →
      (BuildCall.goBuild ∈ handle_compilation content ↔
        ∃ f ∈ content, f.data.contains '.' = true ∧
          (dotSplit f).get? 1 = some "go")) ∧
    (content.contains "Makefile" = false →
      (¬ ∃ f ∈ content, f.data.contains '.' = true ∧
          (dotSplit f).get? 1 = some "go") →
      handle_compilation content = []) := by
  refine ⟨fun hmk => ?_, fun hmk => ?_, fun hmk hno => ?_⟩
  · unfold handle_compilation
    rw [hmk]
    rfl
  · unfold handle_compilation
    rw [hmk]
    simp only [Bool.false_eq_true, if_false, List.mem_map, List.mem_filter]
    constructor
    · rintro ⟨f, ⟨⟨hf, hdot⟩, hgo⟩, _⟩
      exact ⟨f, hf, hdot, by simpa using hgo⟩
    · rintro ⟨f, hf, hdot, hgo⟩
      exact ⟨f, ⟨⟨hf, hdot⟩, by simpa using hgo⟩, trivial⟩
  · unfold handle_compilation
    rw [hmk]
    simp only [Bool.false_eq_true, if_false, List.map_eq_nil_iff]
    rw [List.filter_eq_nil_iff]
    intro f hf
    rw [List.mem_filter] at hf
    intro hgo
    exact hno ⟨f, hf.1, hf.2, by simpa using hgo⟩

/-- C5 witness: the Makefile path wins even next to "main.go", and a lone
"main.go" triggers the Go build. -/
theorem build_orchestrator_dispatch_witness :
    handle_compilation ["Makefile", "main.go"] = [BuildCall.make] ∧
      BuildCall.goBuild ∈ handle_compilation ["main.go"] :=
  ⟨(build_orchestrator_dispatch ["Makefile", "main.go"]).1 (by decide),
    ((build_orchestrator_dispatch ["main.go"]).2.1 (by decide)).mpr
      ⟨"main.go", by decide, by decide, by decide⟩⟩

/-- C5 counterexample: "a.b.go" has the ".go" extension but its second
dot-separated component is "b", so no Go build is attempted — and
conversely "x.go.bak" (extension ".bak") does trigger the Go build.  The
claimed "if and only if some filename has a .go extension" fails both
ways. -/
theorem go_extension_not_build_trigger :
    handle_compilation ["a.b.go"] = [] ∧
      strEndsWith "a.b.go" ".go" = true ∧
      handle_compilation ["x.go.bak"] = [BuildCall.goBuild] ∧
      strEndsWith "x.go.bak" ".go" = false := by decide

/-- `os.path.abspath(p)` for the processes' working directory `cwd`: a
relative path is joined onto `cwd` (no PATH search of any kind). -/
def abspath (cwd p : String) : String :=
  if strStartsWith p "/" then p else osJoin cwd p

/-- The Go binary path computed by `handle_compilation` (line 172):
`go_bin = os.path.abspath("go")`, the file literally named "go" in the
current working directory. -/
def go_bin (cwd : String) : String := abspath cwd "go"

/-- Modelled from POSIX exec semantics used by `subprocess.check_output`
(the spec's "reachable on the execution path"): a command containing a
`/` is executed at that literal path and PATH is never consulted; only a
bare command name is searched through the PATH directories, in order. -/
def locateExecutable (cmd : String) (pathDirs : List String)
    (binaries : List String) : Option String :=
  if cmd.data.contains '/' then
    if binaries.contains cmd then some cmd else none
  else
    pathDirs.findSome? fun d =>
      if binaries.contains (osJoin d cmd) then some (osJoin d cmd) else none

/-- C6: evaluation of the code at the failing input.  With the Go
toolchain installed at "/usr/bin/go" and "/usr/bin" on PATH, but the
process working directory "/work" holding no file named "go", the binary
the code execs is "/work/go" — which cannot be located, so the invocation
raises FileNotFoundError and the "is golang installed ?" error fires even
though a Go build tool is reachable on the execution path (a bare "go"
command would have been found). -/
theorem go_build_ignores_execution_path :
    go_bin "/work" = "/work/go" ∧
      locateExecutable (go_bin "/work") ["/usr/bin"] ["/usr/bin/go"] = none ∧
      locateExecutable "go" ["/usr/bin"] ["/usr/bin/go"] = some "/usr/bin/go" := by
  decide

/-- The package-manager environment `pip_install` runs against.
`findSpec name` models `importlib.util.find_spec(name) is not None` at
the time of the check; `importModule name` models
`importlib.import_module(name)` at the time of the later call (after any
install): an import error, or the module's optional `__version__`
attribute (`none` models a module without it, whose attribute access
raises AttributeError); `versionGT a b` models
`version.parse(a) > version.parse(b)`. -/
structure PyEnv where
  findSpec : String → Bool
  importModule : String → Except String (Option String)
  versionGT : String → String → Bool

/-- The bare package name extracted by `pip_install` (lines 184-186):
the text before "==", overridden by the text before ">=" when ">=" is
present. -/
def pipPackageName (package : String) : String :=
  if strContains package ">=" then (geSplit package).headD ""
  else (eqSplit package).headD ""

/-- `utils.pip_install` (lines 179-204): install when no spec is found;
then, for an exact "==" constraint, import the module and compare
versions, reinstalling on an older installed version.  Only the
AttributeError of a missing `__version__` is swallowed (`Except.ok none`);
an import error propagates.  The result collects the pip invocations
made, or the propagated error. -/
def pip_install (env : PyEnv) (package : String) : Except String (List String) :=
  let package_name := pipPackageName package
  let first := if env.findSpec package_name then [] else [package]
  if strContains package "==" then
    match env.importModule package_name with
    | Except.error e => Except.error e
    | Except.ok none => Except.ok first
    | Except.ok (some v) =>
      if env.versionGT ((eqSplit package).getD 1 "") v then
        Except.ok (first ++ [package])
      else Except.ok first
  else Except.ok first

/-- C4 (amended): the reconciliation of an exact "==" constraint is
non-raising precisely in the case the except-clause covers — the module
imports but exposes no `__version__` (AttributeError): then the
constraint is silently treated as satisfied and at most the initial
install happens.  If the module itself cannot be imported, the import
error propagates out of the decision logic (see the counterexample). -/
theorem pip_missing_version_is_noop (env : PyEnv) (package : String)
    (himp : env.importModule (pipPackageName package) = Except.ok none)
    (heq : strContains package "==" = true) :
    pip_install env package =
      Except.ok (if env.findSpec (pipPackageName package) then [] else [package]) := by
  unfold pip_install
  rw [heq]
  dsimp only
  rw [himp]
  rfl

/-- C4 witness: a module installed without version metadata leaves the
"requests==2.0.0" reconciliation as a successful no-op. -/
theorem pip_missing_version_is_noop_witness :
    pip_install ⟨fun _ => true, fun _ => Except.ok none, fun _ _ => false⟩
        "requests==2.0.0" = Except.ok [] := by
  have h := pip_missing_version_is_noop
    ⟨fun _ => true, fun _ => Except.ok none, fun _ _ => false⟩
    "requests==2.0.0" rfl (by decide)
  simpa using h

/-- C4 counterexample: a package whose distribution name is not an
importable module name (the "beautifulsoup4" installs module "bs4"
situation): find_spec is None, the install runs, and then
`importlib.import_module("beautifulsoup4")` raises ModuleNotFoundError —
which the code only guards with `except AttributeError`, so the decision
logic raises even though no installer subprocess failed and the installed
version simply could not be determined. -/
theorem pip_import_error_propagates :
    pip_install
        ⟨fun _ => false, fun _ => Except.error "ModuleNotFoundError", fun _ _ => false⟩
        "beautifulsoup4==4.9.0" = Except.error "ModuleNotFoundError" := rfl

example : eqSplit "requests==2.0.0" = ["requests", "2.0.0"] := by decide
example : eqSplit "a==b==c" = ["a", "b", "c"] := by decide
example : geSplit "x>=1.0" = ["x", "1.0"] := by decide
example : dotSplit "a.b.go" = ["a", "b", "go"] := by decide
example : pathSplit "/ip/a/b" = ["", "ip", "a", "b"] := by decide
example : pipPackageName "requests==2.0.0" = "requests" := by decide
example : osJoin "/ip" "a/b/c.py" = "/ip/a/b/c.py" := by decide
example : subdirsTarget "/ip" "a/b/c.py" = "/ip/a/b" := by decide
example : dirPrefixes "/ip/a/b" = ["", "/ip", "/ip/a", "/ip/a/b"] := by decide
example : strContains "/home/.cache/p/main.py" ".c" = true := by decide
example : excludedByPattern "/plugins/a.class" = true := by decide
example : excludedByPattern "/plugins/main.py" = false := by decide
